import Mathlib

/-!
Verification of the spiffy migration engine (guard/step/group tree, apply
algorithm, and run-report logger).

The embedding below is a shallow model of the Go sources:

* `Logger`, `Logger.Applyf`, `Logger.Skipf`, `Logger.Error`, `renderStack`
  are translated from `migration/logger.go`.  The Go `Output *logger.Logger`
  field (which may be nil) is modelled by the `hasOutput` flag together with
  the `lines` list that collects the emitted report lines; colorization is
  the identity (the Go `colorize` returns its argument unchanged when the
  writer is not a text formatter, and coloring is presentation-only).
  `fmt.Sprintf(body, args...)` varargs formatting is abstracted by taking the
  already-formatted body string.
* `bodyStatements.Invoke` is translated from `migration/body_statements.go`,
  with the database collaborator `Connection.ExecInTx` abstracted as an
  explicit `exec` function over an opaque database state.
* The Step/Group tree and its `Apply` algorithm, and the existence guards,
  are not present under the visible sources (only their tests and callers
  are); they are modelled from the spec where marked.

A Go `error` value that is non-nil is modelled by `GoErr`; a possibly-nil
error is `Option GoErr` with `none` standing for nil.
-/

/-- A non-nil Go error; `msg` is what `err.Error()` returns. -/
structure GoErr where
  msg : String
deriving DecidableEq, Repr

/-- A node of the migration tree as seen by the reporter: its own label and
its chain of enclosing groups.  `root lbl` is a migration whose `Parent()`
is nil; `sub lbl p` is a migration with label `lbl` whose `Parent()` is `p`. -/
inductive MigNode where
  | root (lbl : String)
  | sub (lbl : String) (up : MigNode)
deriving DecidableEq, Repr

/-- `Label()` of a migration node. -/
def MigNode.lbl : MigNode → String
  | .root l => l
  | .sub l _ => l

/-- `Parent()` of a migration node (`none` = nil). -/
def MigNode.up : MigNode → Option MigNode
  | .root _ => none
  | .sub _ p => some p

/-- Go `strings.TrimPrefix(s, " ")`: drop one leading space if present. -/
def trimLeadingSpace (s : String) : String :=
  match s.data with
  | [] => s
  | c :: rest => if c = ' ' then String.mk rest else s

/-- One iteration of the `renderStack` loop body: prepend
`stackSeparator + label` when the label is non-empty (colorize is the
identity, so the separator is the literal `" > "`). -/
def consLabel (lbl acc : String) : String :=
  if lbl.length > 0 then " > " ++ lbl ++ acc else acc

/-- The `renderStack` cursor loop of `logger.go`, walking from a node up to
the root and prepending each non-empty label. -/
def renderUp : MigNode → String → String
  | .root l, acc => consLabel l acc
  | .sub l p, acc => renderUp p (consLabel l acc)

/-- `Logger.renderStack` from `logger.go`: walk the parent chain starting at
`m.Parent()` and trim one leading space from the result. -/
def renderStack (m : MigNode) : String :=
  match m.up with
  | none => trimLeadingSpace ""
  | some p => trimLeadingSpace (renderUp p "")

/-- Go `fmt.Sprintf("%-5s", s)` style left-aligned padding used by
`colorizeFixedWidthLeftAligned` (colorization itself is the identity). -/
def padRightTo (s : String) (w : Nat) : String :=
  s ++ String.mk (List.replicate (w - s.length) ' ')

/-- `migration.Logger` from `logger.go`.  `hasOutput` models
`Output != nil`; `lines` models the report lines emitted through
`Output.SyncTrigger`. -/
structure Logger where
  hasOutput : Bool
  phase : String
  result : String
  applied : Nat
  skipped : Nat
  failed : Nat
  lines : List String
deriving DecidableEq, Repr

/-- `Logger.write` from `logger.go`: a no-op when `Output` is nil, otherwise
emit one formatted line `phase -- result [stack] [-- body]`. -/
def Logger.write (l : Logger) (m : MigNode) (body : String) : Logger :=
  if l.hasOutput = false then l
  else
    let line := padRightTo l.phase 5 ++ " " ++ "--" ++ " " ++ padRightTo l.result 5
    let line := if (renderStack m).length > 0 then line ++ " " ++ renderStack m else line
    let line := if body.length > 0 then line ++ " " ++ "--" ++ " " ++ body else line
    { l with lines := l.lines ++ [line] }

/-- `Logger.Applyf` from `logger.go`, on a possibly-nil receiver
(`none` = nil `*Logger`); returns the updated receiver and the returned
error (always nil). -/
def Logger.Applyf (l : Option Logger) (m : MigNode) (body : String) :
    Option Logger × Option GoErr :=
  match l with
  | none => (none, none)
  | some l0 =>
      let l1 := { l0 with applied := l0.applied + 1, result := "applied" }
      (some (l1.write m body), none)

/-- `Logger.Skipf` from `logger.go`, on a possibly-nil receiver. -/
def Logger.Skipf (l : Option Logger) (m : MigNode) (body : String) :
    Option Logger × Option GoErr :=
  match l with
  | none => (none, none)
  | some l0 =>
      let l1 := { l0 with skipped := l0.skipped + 1, result := "skipped" }
      (some (l1.write m body), none)

/-- `Logger.Error` from `logger.go`, on a possibly-nil receiver; the second
component is the error value the Go method returns. -/
def Logger.Error (l : Option Logger) (m : MigNode) (e : GoErr) :
    Option Logger × GoErr :=
  match l with
  | none => (none, e)
  | some l0 =>
      let l1 := { l0 with failed := l0.failed + 1, result := "failed" }
      (some (l1.write m e.msg), e)

/-- Labels of the strict ancestors of a node, root-first (the node's own
label excluded), according to the data model: the breadcrumb source. -/
def chainLabels : MigNode → List String
  | .root l => [l]
  | .sub l p => chainLabels p ++ [l]

/-- The non-empty ancestor labels of `m`, root-first. -/
def ancestorLabels (m : MigNode) : List String :=
  match m.up with
  | none => []
  | some p => (chainLabels p).filter (fun s => s.length > 0)

/-- Joining consecutive labels with the breadcrumb separator `" > "`
(this follows the spec wording, to be compared with `renderStack`). -/
def sepJoin : List String → String
  | [] => ""
  | [l] => l
  | l :: rest => l ++ " > " ++ sepJoin rest

/-- Helper: each label prefixed by the separator, concatenated. -/
def prefJoin : List String → String
  | [] => ""
  | l :: rest => " > " ++ l ++ prefJoin rest

/-- `bodyStatements.Invoke` from `migration/body_statements.go`: run each
statement in order through `exec` (the `Connection.ExecInTx` collaborator,
abstracted over an opaque database/transaction state `σ`), returning at the
first error. -/
def bodyStatements.Invoke {σ : Type} (exec : String → σ → Option GoErr × σ) :
    List String → σ → Option GoErr × σ
  | [], s => (none, s)
  | stmt :: rest, s =>
      match exec stmt s with
      | (some e, s1) => (some e, s1)
      | (none, s1) => bodyStatements.Invoke exec rest s1

/-- Instrument an executor so that the state also records, in order, every
statement that was actually handed to `exec`. -/
def instrExec {σ : Type} (exec : String → σ → Option GoErr × σ) :
    String → σ × List String → Option GoErr × (σ × List String) :=
  fun stmt p =>
    let r := exec stmt p.1
    (r.1, (r.2, p.2 ++ [stmt]))

/-- Outcome of each statement when the whole list is run sequentially
through `exec`, regardless of errors. -/
def chainOutcomes {σ : Type} (exec : String → σ → Option GoErr × σ) :
    List String → σ → List (Option GoErr)
  | [], _ => []
  | stmt :: rest, s =>
      let r := exec stmt s
      r.1 :: chainOutcomes exec rest r.2

/-- Database state after running all the given statements through `exec`. -/
def execFold {σ : Type} (exec : String → σ → Option GoErr × σ)
    (stmts : List String) (s : σ) : σ :=
  stmts.foldl (fun st stmt => (exec stmt st).2) s

/-- Modelled from the spec: a Guard is a named predicate
`(connection, tx) → (shouldApply, error)` over the database state
(`guard.go` is not among the visible sources; §3 and §4.1 of the spec). -/
structure Guard (σ : Type) where
  glabel : String
  evaluate : σ → Bool × Option GoErr

mutual
/-- Modelled from the spec: the migration tree of Steps and Groups
(`step.go`/`group.go` are not among the visible sources; §3 of the spec).
A step binds a guard to an invocable `σ → (error, new state)`; a group
carries its ordered children and the abort-on-error policy. -/
inductive Mig (σ : Type) where
  | step (lbl : String) (guard : Guard σ) (inv : σ → Option GoErr × σ)
  | group (lbl : String) (abortOnErr : Bool) (children : MigList σ)
/-- An ordered list of child migrations of a group. -/
inductive MigList (σ : Type) where
  | nil
  | cons (c : Mig σ) (rest : MigList σ)
end

mutual
/-- Number of Steps (leaves) in a migration tree. -/
def Mig.numSteps {σ : Type} : Mig σ → Nat
  | .step _ _ _ => 1
  | .group _ _ cs => cs.numSteps
/-- Total number of Steps among a list of children. -/
def MigList.numSteps {σ : Type} : MigList σ → Nat
  | .nil => 0
  | .cons c rest => c.numSteps + rest.numSteps
end

/-- The reporter node for a migration with label `lbl` under parent `p`
(the `parent` back-reference set when the tree is built). -/
def mkChild (lbl : String) (p : Option MigNode) : MigNode :=
  match p with
  | none => .root lbl
  | some q => .sub lbl q

/-- The state threaded through an apply run: the opaque database state plus
the (possibly nil) reporter. -/
structure RunState (σ : Type) where
  db : σ
  log : Option Logger
deriving DecidableEq, Repr

mutual
/-- Modelled from the spec: `Step.Apply` and `Group.Apply` (§4.2 and §4.3;
the implementing files are not among the visible sources).  A step first
evaluates its guard: a guard error is reported and returned; `shouldApply =
false` is reported as skipped and returns nil; otherwise the invocable runs
and its error, if any, is reported and returned, else the step is reported
as applied.  A group folds over its children in declared order through
`MigList.applyAll`. -/
def Mig.apply {σ : Type} : Mig σ → Option MigNode → RunState σ → Option GoErr × RunState σ
  | .step lbl g inv, parent, s =>
      let node := mkChild lbl parent
      let ge := g.evaluate s.db
      match ge.2 with
      | some e =>
          let r := Logger.Error s.log node e
          (some r.2, { s with log := r.1 })
      | none =>
          if ge.1 then
            let iv := inv s.db
            match iv.1 with
            | some e =>
                let r := Logger.Error s.log node e
                (some r.2, { db := iv.2, log := r.1 })
            | none =>
                let r := Logger.Applyf s.log node lbl
                (none, { db := iv.2, log := r.1 })
          else
            let r := Logger.Skipf s.log node g.glabel
            (none, { s with log := r.1 })
  | .group lbl abort cs, parent, s =>
      MigList.applyAll cs (mkChild lbl parent) abort none s
/-- Modelled from the spec: the child-iteration loop of `Group.Apply`
(§4.3): abort on the first child error when `abort` is true, otherwise
remember the first error (`firstE`) and continue with the remaining
siblings, surfacing that first error once all children were attempted. -/
def MigList.applyAll {σ : Type} : MigList σ → MigNode → Bool → Option GoErr → RunState σ →
    Option GoErr × RunState σ
  | .nil, _, _, firstE, s => (firstE, s)
  | .cons c rest, node, abort, firstE, s =>
      let r := Mig.apply c (some node) s
      match r.1 with
      | some e =>
          if abort then (some e, r.2)
          else MigList.applyAll rest node abort (firstE.orElse (fun _ => some e)) r.2
      | none => MigList.applyAll rest node abort firstE r.2
end

/-- Per-child apply results when every child of a group is attempted in
declared order (the best-effort reference semantics): the list of child
errors and the final state. -/
def MigList.resultsOf {σ : Type} : MigList σ → MigNode → RunState σ →
    List (Option GoErr) × RunState σ
  | .nil, _, s => ([], s)
  | .cons c rest, node, s =>
      let r := Mig.apply c (some node) s
      let rr := MigList.resultsOf rest node r.2
      (r.1 :: rr.1, rr.2)

/-- First non-nil error in a list of child results. -/
def firstErrOf : List (Option GoErr) → Option GoErr
  | [] => none
  | some e :: _ => some e
  | none :: rest => firstErrOf rest

/-- First `n` children of a child list. -/
def MigList.take {σ : Type} : Nat → MigList σ → MigList σ
  | 0, _ => .nil
  | _ + 1, .nil => .nil
  | n + 1, .cons c rest => .cons c (MigList.take n rest)

mutual
/-- Does every Step guard in the tree evaluate to `(false, nil)`
("desired state already holds") on the database state `db`? -/
def Mig.guardsAllFalse {σ : Type} : Mig σ → σ → Bool
  | .step _ g _, db => !(g.evaluate db).1 && (g.evaluate db).2.isNone
  | .group _ _ cs, db => cs.guardsAllFalse db
/-- `Mig.guardsAllFalse` over every child in a list. -/
def MigList.guardsAllFalse {σ : Type} : MigList σ → σ → Bool
  | .nil, _ => true
  | .cons c rest, db => c.guardsAllFalse db && rest.guardsAllFalse db
end

/-- Modelled from the spec: the `QueryIsEmpty` capability of the connection
collaborator (§6): run an introspection query against the database state and
report whether it returned zero rows, or an error. -/
structure DbIntrospect (σ : Type) where
  queryIsEmpty : String → σ → Bool × Option GoErr

/-- Abstract introspection-query key for a table (the literal catalog SQL is
not among the visible sources). -/
def tableQuery (name : String) : String :=
  "table " ++ name

/-- Abstract introspection-query key for a column of a table. -/
def columnQuery (tableName columnName : String) : String :=
  "column " ++ tableName ++ "." ++ columnName

/-- Abstract introspection-query key for a constraint. -/
def constraintQuery (name : String) : String :=
  "constraint " ++ name

/-- Abstract introspection-query key for an index on a table. -/
def indexQuery (tableName name : String) : String :=
  "index " ++ tableName ++ "." ++ name

/-- Abstract introspection-query key for a role. -/
def roleQuery (name : String) : String :=
  "role " ++ name

/-- Modelled from the spec: `TableExists(name)` — should apply iff the
catalog query for the table found a row (§4.1: existence guards interpret
zero rows vs row found, inverting the sense within the pair). -/
def TableExists {σ : Type} (d : DbIntrospect σ) (name : String) : Guard σ :=
  ⟨"table " ++ name ++ " exists", fun db =>
    let r := d.queryIsEmpty (tableQuery name) db
    (!r.1, r.2)⟩

/-- Modelled from the spec: `TableNotExists(name)` — should apply iff the
same catalog query returned zero rows. -/
def TableNotExists {σ : Type} (d : DbIntrospect σ) (name : String) : Guard σ :=
  ⟨"table " ++ name ++ " not exists", fun db => d.queryIsEmpty (tableQuery name) db⟩

/-- Modelled from the spec: `ColumnExists(table, column)`. -/
def ColumnExists {σ : Type} (d : DbIntrospect σ) (tableName columnName : String) : Guard σ :=
  ⟨"column " ++ columnName ++ " exists", fun db =>
    let r := d.queryIsEmpty (columnQuery tableName columnName) db
    (!r.1, r.2)⟩

/-- Modelled from the spec: `ColumnNotExists(table, column)`. -/
def ColumnNotExists {σ : Type} (d : DbIntrospect σ) (tableName columnName : String) : Guard σ :=
  ⟨"column " ++ columnName ++ " not exists", fun db =>
    d.queryIsEmpty (columnQuery tableName columnName) db⟩

/-- Modelled from the spec: `ConstraintExists(name)`. -/
def ConstraintExists {σ : Type} (d : DbIntrospect σ) (name : String) : Guard σ :=
  ⟨"constraint " ++ name ++ " exists", fun db =>
    let r := d.queryIsEmpty (constraintQuery name) db
    (!r.1, r.2)⟩

/-- Modelled from the spec: `ConstraintNotExists(name)`. -/
def ConstraintNotExists {σ : Type} (d : DbIntrospect σ) (name : String) : Guard σ :=
  ⟨"constraint " ++ name ++ " not exists", fun db => d.queryIsEmpty (constraintQuery name) db⟩

/-- Modelled from the spec: `IndexExists(table, name)`. -/
def IndexExists {σ : Type} (d : DbIntrospect σ) (tableName name : String) : Guard σ :=
  ⟨"index " ++ name ++ " exists", fun db =>
    let r := d.queryIsEmpty (indexQuery tableName name) db
    (!r.1, r.2)⟩

/-- Modelled from the spec: `IndexNotExists(table, name)`. -/
def IndexNotExists {σ : Type} (d : DbIntrospect σ) (tableName name : String) : Guard σ :=
  ⟨"index " ++ name ++ " not exists", fun db => d.queryIsEmpty (indexQuery tableName name) db⟩

/-- Modelled from the spec: `RoleExists(name)`. -/
def RoleExists {σ : Type} (d : DbIntrospect σ) (name : String) : Guard σ :=
  ⟨"role " ++ name ++ " exists", fun db =>
    let r := d.queryIsEmpty (roleQuery name) db
    (!r.1, r.2)⟩

/-- Modelled from the spec: `RoleNotExists(name)`. -/
def RoleNotExists {σ : Type} (d : DbIntrospect σ) (name : String) : Guard σ :=
  ⟨"role " ++ name ++ " not exists", fun db => d.queryIsEmpty (roleQuery name) db⟩

/-- Concrete loggers and migrations used to instantiate theorems. -/
def noOutLogger : Logger := ⟨false, "apply", "", 0, 0, 0, []⟩

/-- A fresh reporter with a non-nil output and zeroed counters. -/
def freshLogger : Logger := ⟨true, "apply", "", 0, 0, 0, []⟩

/-- A guard that always wants to apply. -/
def gAlways : Guard Nat := ⟨"always", fun _ => (true, none)⟩

/-- A guard reporting that the desired state already holds. -/
def gDone : Guard Nat := ⟨"already done", fun _ => (false, none)⟩

/-- A guard whose introspection query fails. -/
def gBoom : Guard Nat := ⟨"broken guard", fun _ => (true, some ⟨"guard query failed"⟩)⟩

/-- An invocable that succeeds, bumping the database state. -/
def invInc : Nat → Option GoErr × Nat := fun n => (none, n + 1)

/-- An invocable that fails. -/
def invBoom : Nat → Option GoErr × Nat := fun n => (some ⟨"exec failed"⟩, n)

/-- A run state over `Nat` with no reporter configured. -/
def rsNat0 : RunState Nat := ⟨0, none⟩

/-- A step whose guard holds exactly on the initial database state `0` and
whose invocable moves the state to `1` (so the guard reflects the
post-condition). -/
def c4Step : Mig Nat := .step "create" ⟨"table absent", fun n => (decide (n = 0), none)⟩ invInc

/-- A one-step group used to instantiate the idempotence theorem. -/
def c4Tree : Mig Nat := .group "migrations" false (.cons c4Step .nil)

theorem Logger.write_applied (l : Logger) (m : MigNode) (b : String) :
    (l.write m b).applied = l.applied := by
  unfold Logger.write; split <;> rfl

theorem Logger.write_skipped (l : Logger) (m : MigNode) (b : String) :
    (l.write m b).skipped = l.skipped := by
  unfold Logger.write; split <;> rfl

theorem Logger.write_failed (l : Logger) (m : MigNode) (b : String) :
    (l.write m b).failed = l.failed := by
  unfold Logger.write; split <;> rfl

theorem Logger.write_result (l : Logger) (m : MigNode) (b : String) :
    (l.write m b).result = l.result := by
  unfold Logger.write; split <;> rfl

theorem Logger.write_lines_len (l : Logger) (m : MigNode) (b : String) :
    (l.write m b).lines.length = l.lines.length + (if l.hasOutput then 1 else 0) := by
  unfold Logger.write
  cases h : l.hasOutput <;> simp [h]

theorem Logger.Error_snd (l : Option Logger) (m : MigNode) (e : GoErr) :
    (Logger.Error l m e).2 = e := by
  cases l <;> rfl

/-- Claim C5: for every existence-guard pair X/XNot and every database
state, `Evaluate` never reports `shouldApply = true` for both members of
the pair on that state: the conjunction of the two `shouldApply` booleans
is `false` for all five pairs. -/
theorem guard_pair_inversion {σ : Type} (d : DbIntrospect σ) (db : σ)
    (tn cn nm tni ixn rn : String) :
    (((TableExists d tn).evaluate db).1 && ((TableNotExists d tn).evaluate db).1) = false ∧
    (((ColumnExists d tn cn).evaluate db).1 && ((ColumnNotExists d tn cn).evaluate db).1) = false ∧
    (((ConstraintExists d nm).evaluate db).1 && ((ConstraintNotExists d nm).evaluate db).1) = false ∧
    (((IndexExists d tni ixn).evaluate db).1 && ((IndexNotExists d tni ixn).evaluate db).1) = false ∧
    (((RoleExists d rn).evaluate db).1 && ((RoleNotExists d rn).evaluate db).1) = false := by
  refine ⟨?_, ?_, ?_, ?_, ?_⟩ <;>
    simp [TableExists, TableNotExists, ColumnExists, ColumnNotExists,
      ConstraintExists, ConstraintNotExists, IndexExists, IndexNotExists,
      RoleExists, RoleNotExists]

/-- Claim C6 (amended): each recording operation on a non-nil `Logger`
increments exactly its own counter by one, leaves the other two counters
unchanged, and sets `Result` to its outcome; it emits exactly one report
line per call when `Output` is non-nil and emits no line when `Output` is
nil.  `Error` additionally returns the given error. -/
theorem logger_ops_counters (l : Logger) (m : MigNode) (b : String) (e : GoErr) :
    (∃ l1, Logger.Applyf (some l) m b = (some l1, none) ∧
      l1.applied = l.applied + 1 ∧ l1.skipped = l.skipped ∧ l1.failed = l.failed ∧
      l1.result = "applied" ∧
      l1.lines.length = l.lines.length + (if l.hasOutput then 1 else 0)) ∧
    (∃ l2, Logger.Skipf (some l) m b = (some l2, none) ∧
      l2.skipped = l.skipped + 1 ∧ l2.applied = l.applied ∧ l2.failed = l.failed ∧
      l2.result = "skipped" ∧
      l2.lines.length = l.lines.length + (if l.hasOutput then 1 else 0)) ∧
    (∃ l3, Logger.Error (some l) m e = (some l3, e) ∧
      l3.failed = l.failed + 1 ∧ l3.applied = l.applied ∧ l3.skipped = l.skipped ∧
      l3.result = "failed" ∧
      l3.lines.length = l.lines.length + (if l.hasOutput then 1 else 0)) := by
  refine ⟨⟨_, rfl, ?_, ?_, ?_, ?_, ?_⟩, ⟨_, rfl, ?_, ?_, ?_, ?_, ?_⟩, ⟨_, rfl, ?_, ?_, ?_, ?_, ?_⟩⟩ <;>
    simp [Logger.Applyf, Logger.Skipf, Logger.Error,
      Logger.write_applied, Logger.write_skipped, Logger.write_failed,
      Logger.write_result, Logger.write_lines_len]

/-- Claim C6, counterexample to the claim as stated: on a `Logger` whose
`Output` is nil, `Applyf` emits no report line at all (the claim demands
exactly one line per call). -/
theorem logger_applyf_silent_without_output :
    (((Logger.Applyf (some noOutLogger) (MigNode.root "g") "done").1.map
        (fun l => l.lines.length)) == some 1) = false := by
  decide

/-- Claim C7: `Logger.Error` returns exactly the error value it was given,
unchanged, whether or not the receiver is nil. -/
theorem logger_error_passthrough (l : Option Logger) (m : MigNode) (e : GoErr) :
    (Logger.Error l m e).2 = e :=
  Logger.Error_snd l m e

/-- Claim C10: all three recording operations are safe on a nil receiver:
`Applyf` and `Skipf` return nil, `Error` returns the given error unchanged,
and in every case no state is touched and no output is emitted. -/
theorem logger_nil_receiver_safe (m : MigNode) (b : String) (e : GoErr) :
    Logger.Applyf none m b = (none, none) ∧
    Logger.Skipf none m b = (none, none) ∧
    Logger.Error none m e = (none, e) :=
  ⟨rfl, rfl, rfl⟩

theorem prefJoin_append (xs ys : List String) :
    prefJoin (xs ++ ys) = prefJoin xs ++ prefJoin ys := by
  induction xs with
  | nil => simp [prefJoin, String.empty_append]
  | cons l rest ih => simp [prefJoin, ih, String.append_assoc]

theorem consLabel_eq (lbl acc : String) :
    consLabel lbl acc = prefJoin ([lbl].filter (fun s => s.length > 0)) ++ acc := by
  unfold consLabel
  by_cases h : lbl.length > 0 <;>
    simp [h, prefJoin, String.append_assoc, String.append_empty, String.empty_append]

theorem renderUp_eq (p : MigNode) (acc : String) :
    renderUp p acc = prefJoin ((chainLabels p).filter (fun s => s.length > 0)) ++ acc := by
  induction p generalizing acc with
  | root l => rw [renderUp, chainLabels, consLabel_eq]
  | sub l p ih =>
      rw [renderUp, ih, chainLabels, List.filter_append, prefJoin_append,
        String.append_assoc, consLabel_eq]

theorem sepJoin_cons_eq (l : String) (rest : List String) :
    sepJoin (l :: rest) = l ++ prefJoin rest := by
  induction rest generalizing l with
  | nil => simp [sepJoin, prefJoin, String.append_empty]
  | cons r rs ih =>
      rw [show sepJoin (l :: r :: rs) = l ++ " > " ++ sepJoin (r :: rs) from rfl, ih, prefJoin]
      simp [String.append_assoc]

theorem trim_sep (x : String) : trimLeadingSpace (" > " ++ x) = "> " ++ x := by
  have hd : (" > " ++ x).data = ' ' :: '>' :: ' ' :: x.data := by
    rw [String.data_append]; rfl
  unfold trimLeadingSpace
  split
  next heq => rw [hd] at heq; cases heq
  next c rest heq =>
    rw [hd] at heq
    obtain ⟨rfl, rfl⟩ := List.cons.injEq .. ▸ heq
    rw [if_pos rfl]
    apply String.ext
    rw [String.data_append]; rfl

/-- Claim C8: the breadcrumb rendered for a migration walks its parent
chain, keeps only the ancestors' non-empty labels (never the node's own
label), orders them root-first, and joins consecutive labels with the
separator (the rendered string carries a leading separator marker); a
migration with no parent yields the empty breadcrumb. -/
theorem renderStack_breadcrumb (m : MigNode) :
    renderStack m =
      (if ancestorLabels m = [] then "" else "> " ++ sepJoin (ancestorLabels m)) ∧
    (m.up = none → renderStack m = "") := by
  constructor
  · cases m with
    | root l => rfl
    | sub l p =>
        have h := renderUp_eq p ""
        rw [String.append_empty] at h
        show trimLeadingSpace (renderUp p "") = _
        rw [h]
        have hanc : ancestorLabels (.sub l p) = (chainLabels p).filter (fun s => s.length > 0) := rfl
        rw [hanc]
        cases hF : (chainLabels p).filter (fun s => s.length > 0) with
        | nil => rfl
        | cons a rest =>
            rw [if_neg (by simp), sepJoin_cons_eq, prefJoin, String.append_assoc, trim_sep,
              ← String.append_assoc]
  · intro h
    cases m with
    | root l => rfl
    | sub l p => simp [MigNode.up] at h

/-- Claim C8, witness: a migration with no parent yields the empty
breadcrumb, and a chain with an empty-labelled middle group renders the
remaining ancestor labels root-first. -/
theorem renderStack_breadcrumb_witness :
    renderStack (MigNode.root "step one") = "" ∧
    renderStack (MigNode.sub "s" (MigNode.sub "mid" (MigNode.sub "" (MigNode.root "top")))) =
      "> top > mid" := by
  refine ⟨(renderStack_breadcrumb (MigNode.root "step one")).2 rfl, ?_⟩
  rw [(renderStack_breadcrumb (MigNode.sub "s" (MigNode.sub "mid"
    (MigNode.sub "" (MigNode.root "top"))))).1]
  decide

/-- Claim C3: `bodyStatements.Invoke` executes its statements one at a time
in list order inside the given transaction (the instrumented executor logs
exactly the successful prefix plus, on failure, the failing statement — so
no later statement ever runs), returns the first statement error (the
outcome at the first non-nil position of the sequential outcome chain), and
returns nil with every statement executed when all succeed. -/
theorem bodyStatements_invoke_sequential {σ : Type}
    (exec : String → σ → Option GoErr × σ) (stmts : List String)
    (s0 : σ) (log0 : List String) :
    bodyStatements.Invoke (instrExec exec) stmts (s0, log0) =
      ((chainOutcomes exec stmts s0).getD
          ((chainOutcomes exec stmts s0).takeWhile Option.isNone).length none,
       (execFold exec
          (stmts.take (((chainOutcomes exec stmts s0).takeWhile Option.isNone).length + 1)) s0,
        log0 ++ stmts.take
          (((chainOutcomes exec stmts s0).takeWhile Option.isNone).length + 1))) := by
  induction stmts generalizing s0 log0 with
  | nil => simp [bodyStatements.Invoke, chainOutcomes, execFold]
  | cons stmt rest ih =>
      cases he : exec stmt s0 with
      | mk e s1 =>
          cases e with
          | some err =>
              simp [bodyStatements.Invoke, instrExec, chainOutcomes, execFold, he,
                List.takeWhile_cons]
          | none =>
              simp only [bodyStatements.Invoke, instrExec, chainOutcomes, execFold, he,
                List.takeWhile_cons, Option.isNone_none, List.take, List.foldl,
                List.getD_cons_succ, if_true]
              rw [ih s1 (log0 ++ [stmt])]
              simp [execFold, List.append_assoc]

/-- Claim C1: `Step.Apply` evaluates the guard first; a guard error is
reported and returned and the invocable never runs (the outcome is the same
for every invocable and the database state is untouched); `shouldApply =
false` is reported as skipped, the invocable never runs, and nil is
returned; only on `(true, nil)` does the invocable run, and its error is
both reported and returned. -/
theorem step_apply_guard_protocol {σ : Type} (g : Guard σ) (inv : σ → Option GoErr × σ)
    (lbl : String) (p : Option MigNode) (s : RunState σ) :
    (∀ b e, g.evaluate s.db = (b, some e) →
        (Mig.step lbl g inv).apply p s =
          (some e, { s with log := (Logger.Error s.log (mkChild lbl p) e).1 })) ∧
    (g.evaluate s.db = (false, none) →
        (Mig.step lbl g inv).apply p s =
          (none, { s with log := (Logger.Skipf s.log (mkChild lbl p) g.glabel).1 })) ∧
    (∀ e db2, g.evaluate s.db = (true, none) → inv s.db = (some e, db2) →
        (Mig.step lbl g inv).apply p s =
          (some e, { db := db2, log := (Logger.Error s.log (mkChild lbl p) e).1 })) ∧
    (∀ db2, g.evaluate s.db = (true, none) → inv s.db = (none, db2) →
        (Mig.step lbl g inv).apply p s =
          (none, { db := db2, log := (Logger.Applyf s.log (mkChild lbl p) lbl).1 })) := by
  refine ⟨?_, ?_, ?_, ?_⟩
  · intro b e h
    simp [Mig.apply, h, Logger.Error_snd]
  · intro h
    simp [Mig.apply, h]
  · intro e db2 hg hi
    simp [Mig.apply, hg, hi, Logger.Error_snd]
  · intro db2 hg hi
    simp [Mig.apply, hg, hi]

/-- Claim C1, witness: the four guard/invocable outcomes at concrete
inputs over `σ = Nat` with no reporter configured. -/
theorem step_apply_guard_protocol_witness :
    (Mig.step "s" gBoom invInc).apply none rsNat0 =
      (some ⟨"guard query failed"⟩, ⟨0, none⟩) ∧
    (Mig.step "s" gDone invInc).apply none rsNat0 = (none, ⟨0, none⟩) ∧
    (Mig.step "s" gAlways invBoom).apply none rsNat0 =
      (some ⟨"exec failed"⟩, ⟨0, none⟩) ∧
    (Mig.step "s" gAlways invInc).apply none rsNat0 = (none, ⟨1, none⟩) :=
  ⟨((step_apply_guard_protocol gBoom invInc "s" none rsNat0).1
      true ⟨"guard query failed"⟩ rfl).trans rfl,
   ((step_apply_guard_protocol gDone invInc "s" none rsNat0).2.1 rfl).trans rfl,
   ((step_apply_guard_protocol gAlways invBoom "s" none rsNat0).2.2.1
      ⟨"exec failed"⟩ 0 rfl rfl).trans rfl,
   ((step_apply_guard_protocol gAlways invInc "s" none rsNat0).2.2.2 1 rfl rfl).trans rfl⟩

theorem orElse_some_left (a : Option GoErr) (e : GoErr) (f : Unit → Option GoErr) :
    ((a.orElse fun _ => some e).orElse f) = a.orElse fun _ => some e := by
  cases a <;> rfl

theorem firstErrOf_isNone (es : List (Option GoErr)) :
    (firstErrOf es).isNone = es.all Option.isNone := by
  induction es with
  | nil => rfl
  | cons o rest ih => cases o <;> simp [firstErrOf, ih]

theorem applyAll_false_eq {σ : Type} (cs : MigList σ) (node : MigNode) (s : RunState σ)
    (firstE : Option GoErr) :
    MigList.applyAll cs node false firstE s =
      (firstE.orElse (fun _ => firstErrOf (cs.resultsOf node s).1),
       (cs.resultsOf node s).2) := by
  cases cs with
  | nil =>
      simp only [MigList.applyAll, MigList.resultsOf, firstErrOf]
      cases firstE <;> rfl
  | cons c rest =>
      have ih := fun s2 f2 => applyAll_false_eq rest node s2 f2
      simp only [MigList.applyAll, MigList.resultsOf]
      cases hr : (Mig.apply c (some node) s).1 with
      | some e =>
          simp only [hr, Bool.false_eq_true, if_false, ih, orElse_some_left, firstErrOf]
      | none =>
          simp only [hr, ih, firstErrOf]

theorem applyAll_true_eq {σ : Type} (cs : MigList σ) (node : MigNode) (s : RunState σ) :
    MigList.applyAll cs node true none s =
      (firstErrOf (cs.resultsOf node s).1,
       ((MigList.take (((cs.resultsOf node s).1.takeWhile Option.isNone).length + 1) cs).resultsOf
          node s).2) := by
  cases cs with
  | nil => rfl
  | cons c rest =>
      have ih := fun s2 => applyAll_true_eq rest node s2
      simp only [MigList.applyAll, MigList.resultsOf]
      cases hr : (Mig.apply c (some node) s).1 with
      | some e =>
          simp [hr, firstErrOf, List.takeWhile_cons, MigList.take, MigList.resultsOf]
      | none =>
          simp [hr, firstErrOf, List.takeWhile_cons, MigList.take, MigList.resultsOf, ih]

/-- Claim C2: with `shouldAbortOnError = false` a group attempts every
child in order (its final state is the full sequential state) and returns
the first error among the children's results, nil exactly when every child
succeeded; with `shouldAbortOnError = true` it returns the first error and
its final state is that reached after the successful prefix plus the
failing child only — no later sibling is ever applied. -/
theorem group_error_policy {σ : Type} (lbl : String) (cs : MigList σ)
    (p : Option MigNode) (s : RunState σ) :
    ((Mig.group lbl false cs).apply p s =
        (firstErrOf ((cs.resultsOf (mkChild lbl p) s).1),
         (cs.resultsOf (mkChild lbl p) s).2)) ∧
    ((firstErrOf ((cs.resultsOf (mkChild lbl p) s).1)).isNone
        = (cs.resultsOf (mkChild lbl p) s).1.all Option.isNone) ∧
    ((Mig.group lbl true cs).apply p s =
        (firstErrOf ((cs.resultsOf (mkChild lbl p) s).1),
         ((MigList.take
            ((((cs.resultsOf (mkChild lbl p) s).1.takeWhile Option.isNone).length) + 1)
            cs).resultsOf (mkChild lbl p) s).2)) := by
  refine ⟨?_, firstErrOf_isNone _, ?_⟩
  · show MigList.applyAll cs (mkChild lbl p) false none s = _
    rw [applyAll_false_eq]
    rfl
  · show MigList.applyAll cs (mkChild lbl p) true none s = _
    rw [applyAll_true_eq]

/-- Claim C9: for a group with children `[A, B, C]`, one apply pass is the
strict sequential composition: B (guard and invocable alike, both functions
of the incoming run state) is applied to the state A's apply produced, and
C to the state B's apply produced; under abort-on-error an earlier failure
returns before the later siblings are ever applied. -/
theorem group_children_in_order {σ : Type} (A B C : Mig σ) (lbl : String)
    (ab : Bool) (p : Option MigNode) (s : RunState σ) :
    (Mig.group lbl ab (.cons A (.cons B (.cons C .nil)))).apply p s =
      (let node := mkChild lbl p
       let r1 := A.apply (some node) s
       let r2 := B.apply (some node) r1.2
       let r3 := C.apply (some node) r2.2
       if ab then
         (if r1.1.isSome then r1 else if r2.1.isSome then r2 else r3)
       else (firstErrOf [r1.1, r2.1, r3.1], r3.2)) := by
  show MigList.applyAll _ (mkChild lbl p) ab none s = _
  cases hA : Mig.apply A (some (mkChild lbl p)) s with
  | mk a1 a2 =>
  cases hB : Mig.apply B (some (mkChild lbl p)) a2 with
  | mk b1 b2 =>
  cases hC : Mig.apply C (some (mkChild lbl p)) b2 with
  | mk c1 c2 =>
  cases ab <;> cases a1 <;> cases b1 <;> cases c1 <;>
    simp [MigList.applyAll, hA, hB, hC, firstErrOf, Option.orElse]

mutual
/-- If every guard in `m` reports `(false, nil)` on `db`, applying `m`
leaves the database untouched, returns nil, and only the skip counter
moves (by the number of Steps). -/
theorem mig_skip_run {σ : Type} (m : Mig σ) (p : Option MigNode) (db : σ) (l : Logger)
    (h : m.guardsAllFalse db = true) :
    ∃ l2, m.apply p { db := db, log := some l } = (none, { db := db, log := some l2 }) ∧
      l2.applied = l.applied ∧ l2.skipped = l.skipped + m.numSteps ∧ l2.failed = l.failed := by
  cases m with
  | step lbl g inv =>
      simp only [Mig.guardsAllFalse, Bool.and_eq_true, Bool.not_eq_true',
        Option.isNone_iff_eq_none] at h
      obtain ⟨h1, h2⟩ := h
      refine ⟨({ l with skipped := l.skipped + 1, result := "skipped" } : Logger).write
        (mkChild lbl p) g.glabel, ?_, ?_, ?_, ?_⟩
      · simp [Mig.apply, h1, h2, Logger.Skipf]
      · simp [Logger.write_applied]
      · simp [Logger.write_skipped, Mig.numSteps]
      · simp [Logger.write_failed]
  | group lbl ab cs =>
      simp only [Mig.guardsAllFalse] at h
      obtain ⟨l2, he, h1, h2, h3⟩ := miglist_skip_run cs (mkChild lbl p) ab none db l h
      exact ⟨l2, he, h1, h2, h3⟩
/-- List version of `mig_skip_run`: the fold over a group's children
returns its incoming first-error accumulator and only bumps the skip
counter. -/
theorem miglist_skip_run {σ : Type} (cs : MigList σ) (node : MigNode) (ab : Bool)
    (fe : Option GoErr) (db : σ) (l : Logger) (h : cs.guardsAllFalse db = true) :
    ∃ l2, MigList.applyAll cs node ab fe { db := db, log := some l } =
        (fe, { db := db, log := some l2 }) ∧
      l2.applied = l.applied ∧ l2.skipped = l.skipped + cs.numSteps ∧ l2.failed = l.failed := by
  cases cs with
  | nil => exact ⟨l, rfl, rfl, by simp [MigList.numSteps], rfl⟩
  | cons c rest =>
      simp only [MigList.guardsAllFalse, Bool.and_eq_true] at h
      obtain ⟨hc, hrest⟩ := h
      obtain ⟨l1, he1, ha1, hs1, hf1⟩ := mig_skip_run c (some node) db l hc
      obtain ⟨l2, he2, ha2, hs2, hf2⟩ := miglist_skip_run rest node ab fe db l1 hrest
      refine ⟨l2, ?_, ?_, ?_, ?_⟩
      · simp only [MigList.applyAll, he1, he2]
      · rw [ha2, ha1]
      · rw [hs2, hs1, MigList.numSteps, Nat.add_assoc]
      · rw [hf2, hf1]
end

/-- Claim C4: if, on the database state produced by a first application of
the tree, every Step guard reports `(false, nil)` (that is, every guard
correctly reflects its invocable's post-condition), then a second
application with a fresh reporter returns nil, leaves the database state
unchanged, and ends with counters `applied = 0`, `skipped = N`,
`failed = 0` where `N` is the number of Steps in the tree. -/
theorem second_run_all_skipped {σ : Type} (m : Mig σ) (p : Option MigNode)
    (s0 : RunState σ) (l0 : Logger)
    (ha : l0.applied = 0) (hs : l0.skipped = 0) (hf : l0.failed = 0)
    (h : m.guardsAllFalse ((m.apply p s0).2.db) = true) :
    ∃ l2, m.apply p { db := (m.apply p s0).2.db, log := some l0 } =
        (none, { db := (m.apply p s0).2.db, log := some l2 }) ∧
      l2.applied = 0 ∧ l2.skipped = m.numSteps ∧ l2.failed = 0 := by
  obtain ⟨l2, he, h1, h2, h3⟩ := mig_skip_run m p ((m.apply p s0).2.db) l0 h
  exact ⟨l2, he, by rw [h1, ha], by rw [h2, hs, Nat.zero_add], by rw [h3, hf]⟩

/-- Claim C4, witness: a one-step group over `σ = Nat` whose guard holds
exactly on the initial state; after the first run the guard everywhere
reports done, and the second run with a fresh reporter skips the single
step. -/
theorem second_run_all_skipped_witness :
    c4Tree.guardsAllFalse ((c4Tree.apply none rsNat0).2.db) = true ∧
    ∃ l2, c4Tree.apply none { db := (c4Tree.apply none rsNat0).2.db, log := some freshLogger } =
        (none, { db := (c4Tree.apply none rsNat0).2.db, log := some l2 }) ∧
      l2.applied = 0 ∧ l2.skipped = c4Tree.numSteps ∧ l2.failed = 0 :=
  ⟨by decide,
   second_run_all_skipped c4Tree none rsNat0 freshLogger rfl rfl rfl (by decide)⟩
